import Mathlib

/-!
Verification of the BM25 ranking module (`backend/app/utils/bm25_ranker.py`).

The module is a self-contained, pure-Python implementation of BM25 over job
records.  This file gives a shallow embedding of its data model and of the
operations `_tokenize`, `_get_document_text`, `fit`, `score` and `rank`,
and proves or refutes the specification claims about them.

Numeric conventions: Python floats are idealised as real numbers (`ℝ`);
`math.log` is `Real.log`.  A Python function that can raise is modelled
with `Option` (`none` = exception).  All purely combinatorial parts
(tokenisation, truthiness, counting, slicing) are computable.
-/

namespace BM25

/-- ASCII lowercase letters and digits: the characters matched by the
character class `[a-z0-9]` of the regex in `_tokenize`. -/
def isTokenChar (c : Char) : Bool :=
  ('a' ≤ c && c ≤ 'z') || ('0' ≤ c && c ≤ '9')

/-- Regex word characters (`\w`), the class Python's `\b` word boundary is
defined from: letters, digits and underscore.  Python's `re` is
Unicode-aware, so `\w` also contains non-ASCII letters and digits; this
model is faithful for ASCII text, which is all the statements below need
(the refuting input for claim C3 is the ASCII underscore). -/
def isWordChar (c : Char) : Bool :=
  isTokenChar c || ('A' ≤ c && c ≤ 'Z') || c == '_'

/-- Scanner computing `re.findall(r'\b[a-z0-9]+\b', text)`.  A regex match
is a maximal run of `[a-z0-9]` characters whose left and right neighbours
(when they exist) are not word characters: that is exactly what the two
`\b` anchors demand, because every `[a-z0-9]` character is itself a word
character, so a match cannot start or stop inside a word-character run.
`prevWord` records whether the previously consumed character was a word
character, `cur` is the candidate run read so far (reversed), and `curOk`
records whether the left end of `cur` was a genuine `\b` boundary. -/
def tokAux (prevWord curOk : Bool) (cur : List Char) : List Char → List (List Char)
  | [] => if cur ≠ [] ∧ curOk = true then [cur.reverse] else []
  | c :: cs =>
    if isTokenChar c then
      if cur = [] then tokAux true (!prevWord) [c] cs
      else tokAux true curOk (c :: cur) cs
    else
      (if cur ≠ [] ∧ curOk = true ∧ isWordChar c = false then [cur.reverse] else []) ++
        tokAux (isWordChar c) false [] cs

/-- Model of `BM25Ranker._tokenize`: lowercase the text, then return the
matches of `\b[a-z0-9]+\b` left to right.  The guard
`if not text: return []` is subsumed: scanning the empty character list
yields `[]`. -/
def tokenize (s : String) : List String :=
  (tokAux false false [] (s.data.map Char.toLower)).map (fun cs => String.mk cs)

/-- Maximal runs of consecutive characters satisfying `p`, left to right
(`cur` is the current run, reversed). -/
def runsAux (p : Char → Bool) (cur : List Char) : List Char → List (List Char)
  | [] => if cur = [] then [] else [cur.reverse]
  | c :: cs =>
    if p c then runsAux p (c :: cur) cs
    else (if cur = [] then [] else [cur.reverse]) ++ runsAux p [] cs

/-- Maximal runs of consecutive characters satisfying `p`. -/
def runs (p : Char → Bool) (l : List Char) : List (List Char) := runsAux p [] l

/-- The tokenizer as claim C3 words it: every non-alphanumeric character
(underscore included) is a separator, and every maximal `[a-z0-9]` run of
the lowercased text is returned as a token. -/
def specTokenize (s : String) : List String :=
  (runs isTokenChar (s.data.map Char.toLower)).map (fun cs => String.mk cs)

/-- The tokenizer as the amended claim words it: only non-word characters
separate; a maximal run of word characters yields a token exactly when it
consists solely of `[a-z0-9]`, and a run containing a word character
outside `[a-z0-9]` (such as underscore) is discarded whole. -/
def specTokenizeAmended (s : String) : List String :=
  ((runs isWordChar (s.data.map Char.toLower)).filter
    (fun r => r.all isTokenChar)).map (fun cs => String.mk cs)

/-- A job record as `_get_document_text` reads it: five optional fields.
`none` models a missing/`None` attribute; `some ""` and `some []` model
present-but-empty values (all falsy in Python). -/
structure Job where
  title : Option String
  company : Option String
  location : Option String
  jd_text : Option String
  jd_keywords : Option (List String)
deriving DecidableEq

/-- Python truthiness of an optional string (`None` and `""` are falsy). -/
def truthyStr : Option String → Bool
  | none => false
  | some s => !(s == "")

/-- Python truthiness of an optional list (`None` and `[]` are falsy). -/
def truthyList : Option (List String) → Bool
  | none => false
  | some l => !l.isEmpty

/-- Model of `BM25Ranker._get_document_text`: build `parts` exactly as the
source does — title ×3, company ×2, location ×2, jd_text ×1, then each
keyword ×2, each block guarded by Python truthiness of its field — and
join the parts with single spaces. -/
def getDocumentText (job : Job) : String :=
  let parts : List String :=
    (if truthyStr job.title then List.replicate 3 (job.title.getD "") else []) ++
    (if truthyStr job.company then List.replicate 2 (job.company.getD "") else []) ++
    (if truthyStr job.location then List.replicate 2 (job.location.getD "") else []) ++
    (if truthyStr job.jd_text then [job.jd_text.getD ""] else []) ++
    (if truthyList job.jd_keywords then
        (job.jd_keywords.getD []).flatMap (fun k => List.replicate 2 k)
      else [])
  String.intercalate " " parts

/-- Weighted scalar fields in the order and with the repetition counts the
spec prescribes. -/
def specWeightedFields (job : Job) : List (Option String × Nat) :=
  [(job.title, 3), (job.company, 2), (job.location, 2), (job.jd_text, 1)]

/-- Copies contributed by one weighted field per the spec: an absent,
null or empty field is skipped entirely, a present one contributes `n`
whitespace-joined copies. -/
def specFieldCopies : Option String × Nat → List String
  | (none, _) => []
  | (some s, n) => if s = "" then [] else List.replicate n s

/-- Document projection as the spec words it: the whitespace-joined
concatenation, in fixed order, of the weighted scalar fields followed by
each keyword twice, absent/null/empty fields contributing nothing. -/
def specProjectText (job : Job) : String :=
  String.intercalate " "
    ((specWeightedFields job).flatMap specFieldCopies ++
      (match job.jd_keywords with
       | none => []
       | some ks => if ks = [] then [] else ks.flatMap (fun k => [k, k])))

/-- Tokens of the projected text of a job (the per-document token list
`fit` stores in `self.documents`). -/
def docTokens (job : Job) : List String := tokenize (getDocumentText job)

/-- State of a `BM25Ranker` instance.  `doc_freqs` stores one `Counter`
per document, modelled as its lookup function `term ↦ count`; `idf` is
the dict `self.idf`, modelled as a partial map (`none` = key absent). -/
structure Ranker where
  k1 : ℝ
  b : ℝ
  documents : List (List String)
  docLengths : List Nat
  avgDocLen : ℝ
  docFreqs : List (String → Nat)
  idf : String → Option ℝ

/-- `BM25Ranker.__init__(k1, b)`: parameters stored, all index state empty. -/
def initRanker (k1 b : ℝ) : Ranker :=
  { k1 := k1, b := b, documents := [], docLengths := [], avgDocLen := 0,
    docFreqs := [], idf := fun _ => none }

/-- `BM25Ranker()` with the default parameters `k1=1.5`, `b=0.75`. -/
noncomputable def defaultRanker : Ranker := initRanker 1.5 0.75

/-- `term in df` for some stored `Counter` — a `Counter` built from a
token list has exactly the list's elements as keys, so membership in some
document's counter is membership in some document's token list. -/
def vocabMem (documents : List (List String)) (t : String) : Bool :=
  documents.any (fun d => d.contains t)

/-- `sum(1 for df in self.doc_freqs if term in df)`: the number of
documents containing the term. -/
def docCountOf (documents : List (List String)) (t : String) : Nat :=
  (documents.filter (fun d => d.contains t)).length

/-- `math.log((num_docs - doc_count + 0.5) / (doc_count + 0.5) + 1.0)`. -/
noncomputable def computeIdf (numDocs docCount : Nat) : ℝ :=
  Real.log (((numDocs : ℝ) - (docCount : ℝ) + 0.5) / ((docCount : ℝ) + 0.5) + 1)

/-- Model of `BM25Ranker.fit`: tokenize every job's projected text,
recompute lengths, average length, per-document counters, and write an
idf entry for every term of the new corpus.  Note that the source resets
`self.documents`, `self.doc_lengths` and `self.doc_freqs` but never
clears `self.idf`, so entries for terms outside the new corpus are left
exactly as they were — the model keeps them through `r.idf`. -/
noncomputable def fit (r : Ranker) (jobs : List Job) : Ranker :=
  let documents := jobs.map docTokens
  let docLengths := documents.map List.length
  let avgDocLen : ℝ :=
    if docLengths = [] then 0 else (docLengths.sum : ℝ) / (docLengths.length : ℝ)
  let docFreqs : List (String → Nat) := documents.map (fun d => fun t => d.count t)
  { k1 := r.k1, b := r.b, documents := documents, docLengths := docLengths,
    avgDocLen := avgDocLen, docFreqs := docFreqs,
    idf := fun t =>
      if vocabMem documents t = true then
        some (computeIdf documents.length (docCountOf documents t))
      else r.idf t }

/-- `doc_len / self.avg_doc_len if self.avg_doc_len > 0 else 1`. -/
noncomputable def lengthNormVal (avgDocLen : ℝ) (docLen : Nat) : ℝ :=
  if 0 < avgDocLen then (docLen : ℝ) / avgDocLen else 1

/-- One iteration of the scoring loop for a query term already known to
be an idf key: skip it if its frequency in the document is zero,
otherwise add `idf * (tf * (k1 + 1)) / (tf + k1 * (1 - b + b * lengthNorm))`. -/
noncomputable def termContrib (k1 b idfVal lnorm : ℝ) (tf : Nat) : ℝ :=
  if tf = 0 then 0
  else idfVal * (((tf : ℝ) * (k1 + 1)) / ((tf : ℝ) + k1 * (1 - b + b * lnorm)))

/-- BM25 score of the document at (in-range, nonnegative) position `j`:
the body of `score` after the index has been resolved.  `fit` keeps
`documents`, `doc_lengths` and `doc_freqs` aligned, so the three list
reads of the source are modelled by reads at the one resolved position. -/
noncomputable def scoreAt (r : Ranker) (q : String) (j : Nat) : ℝ :=
  ((tokenize q).map (fun term =>
    match r.idf term with
    | none => 0
    | some idfVal =>
        termContrib r.k1 r.b idfVal
          (lengthNormVal r.avgDocLen (r.docLengths.getD j 0))
          ((r.docFreqs.getD j (fun _ => 0)) term))).sum

/-- Python list subscription `l[i]` for a list of length `n`: a
nonnegative index below `n` is itself, a negative one aliases from the
end when `-n ≤ i`, anything else raises `IndexError` (`none`). -/
def pyIdx (n : Nat) (i : ℤ) : Option Nat :=
  if 0 ≤ i ∧ i < (n : ℤ) then some i.toNat
  else if -(n : ℤ) ≤ i ∧ i < 0 then some ((n : ℤ) + i).toNat
  else none

/-- Model of `BM25Ranker.score`: the guard `doc_index >= len(documents)`
returns `0.0`; otherwise the document is subscripted with Python
semantics, so a negative in-range index aliases from the end and an index
below `-len(documents)` raises `IndexError` (modelled as `none`). -/
noncomputable def score (r : Ranker) (q : String) (i : ℤ) : Option ℝ :=
  if (r.documents.length : ℤ) ≤ i then some 0
  else (pyIdx r.documents.length i).map (fun j => scoreAt r q j)

/-- Stable descending insertion: `x` passes over exactly the elements
whose score is strictly greater than its own, so among equal scores
earlier elements stay first. -/
noncomputable def insertDesc {α : Type} (x : α × ℝ) : List (α × ℝ) → List (α × ℝ)
  | [] => [x]
  | y :: ys => if x.2 < y.2 then y :: insertDesc x ys else x :: y :: ys

/-- Model of `scored_jobs.sort(key=lambda x: x[1], reverse=True)`.
Python's `list.sort` is guaranteed stable, and `reverse=True` does not
reverse ties; its observable behaviour — the unique permutation that is
descending in the key and keeps equal-keyed elements in input order — is
realised here by stable insertion sort. -/
noncomputable def sortDesc {α : Type} : List (α × ℝ) → List (α × ℝ)
  | [] => []
  | x :: xs => insertDesc x (sortDesc xs)

/-- Python slice `l[:k]` for an integer bound: the first `k` elements for
`k ≥ 0`, and all but the last `-k` (clamped at zero) for `k < 0`. -/
def pySliceTo {α : Type} (l : List α) (k : ℤ) : List α :=
  if 0 ≤ k then l.take k.toNat else l.take ((l.length : ℤ) + k).toNat

/-- The loop `for idx, job in enumerate(jobs): scored_jobs.append((job,
self.score(query, idx)))`.  Every enumerated index is in range, so the
`IndexError` case of `score` cannot occur; `getD 0` merely extracts the
returned float. -/
noncomputable def scoredList (r2 : Ranker) (q : String) (jobs : List Job) :
    List (Job × ℝ) :=
  jobs.enum.map (fun p => (p.2, (score r2 q (p.1 : ℤ)).getD 0))

/-- Model of `BM25Ranker.rank`: refit on the given jobs, score each by
position, sort stably by score descending, then apply `if top_k:` —
Python truthiness, so `None` and `0` both return the whole list and any
other integer slices. -/
noncomputable def rank (r : Ranker) (jobs : List Job) (q : String)
    (topK : Option ℤ) : List (Job × ℝ) :=
  let r2 := fit r jobs
  let sorted := sortDesc (scoredList r2 q jobs)
  match topK with
  | none => sorted
  | some k => if k = 0 then sorted else pySliceTo sorted k

/-- Concrete one-field job records used as inputs for the closed
counterexample and witness statements below. -/
def jobX : Job := ⟨some "x", none, none, none, none⟩

def jobY : Job := ⟨some "y", none, none, none, none⟩

def jobAlpha : Job := ⟨some "alpha", none, none, none, none⟩

def jobBeta : Job := ⟨some "beta", none, none, none, none⟩

theorem tokenChar_isWordChar {c : Char} (h : isTokenChar c = true) :
    isWordChar c = true := by
  simp [isWordChar, h]

theorem emit_eq_filter (curOk : Bool) (cur curW : List Char)
    (hOk : curOk = true → cur ≠ [] → curW = cur ∧ cur.all isTokenChar = true)
    (hBad : curW ≠ [] → (cur = [] ∨ curOk = false) →
      ∃ d ∈ curW, isTokenChar d = false)
    (hCur : cur ≠ [] → curW ≠ []) :
    (if cur ≠ [] ∧ curOk = true then [cur.reverse] else []) =
      (if curW = [] then [] else [curW.reverse]).filter
        (fun r => r.all isTokenChar) := by
  by_cases hw : curW = []
  · have hc : cur = [] := by
      by_contra hc
      exact hCur hc hw
    simp [hw, hc]
  · by_cases ho : cur ≠ [] ∧ curOk = true
    · obtain ⟨hW, hall⟩ := hOk ho.2 ho.1
      have hrev : curW.reverse.all isTokenChar = true := by
        rw [hW, List.all_reverse]; exact hall
      simp [hw, ho.1, ho.2, hW, hrev, List.filter_cons, List.all_reverse, hall]
    · have hd : ∃ d ∈ curW, isTokenChar d = false := by
        apply hBad hw
        rcases Decidable.em (cur = []) with h | h
        · exact Or.inl h
        · right
          cases hcOk : curOk with
          | false => rfl
          | true => exact absurd ⟨h, hcOk⟩ ho
      have : curW.reverse.all isTokenChar = false := by
        rw [List.all_reverse]
        obtain ⟨d, hdmem, hdf⟩ := hd
        simp only [List.all_eq_false]
        exact ⟨d, hdmem, by simp [hdf]⟩
      simp [hw, ho, this]

theorem tokAux_eq_filter_runs :
    ∀ (cs : List Char) (prevW curOk : Bool) (cur curW : List Char),
      (prevW = true ↔ curW ≠ []) →
      (curOk = true → cur ≠ [] → curW = cur ∧ cur.all isTokenChar = true) →
      (curW ≠ [] → (cur = [] ∨ curOk = false) →
        ∃ d ∈ curW, isTokenChar d = false) →
      (cur ≠ [] → curW ≠ []) →
      tokAux prevW curOk cur cs =
        (runsAux isWordChar curW cs).filter (fun r => r.all isTokenChar) := by
  intro cs
  induction cs with
  | nil =>
    intro prevW curOk cur curW hPrev hOk hBad hCur
    simp only [tokAux, runsAux]
    exact emit_eq_filter curOk cur curW hOk hBad hCur
  | cons c cs ih =>
    intro prevW curOk cur curW hPrev hOk hBad hCur
    by_cases ht : isTokenChar c = true
    · have hwc : isWordChar c = true := tokenChar_isWordChar ht
      simp only [tokAux, runsAux, ht, hwc, if_true]
      by_cases hc : cur = []
      · subst hc
        rw [if_pos rfl]
        apply ih
        · simp
        · intro hok _
          have hpf : prevW = false := by
            cases prevW with
            | false => rfl
            | true => simp at hok
          have hwEmpty : curW = [] := by
            by_contra hne
            have h2 := hPrev.mpr hne
            rw [hpf] at h2
            exact Bool.false_ne_true h2
          subst hwEmpty
          exact ⟨rfl, by simp [ht]⟩
        · intro _ h
          rcases h with h | h
          · simp at h
          · have hpt : prevW = true := by
              cases prevW with
              | true => rfl
              | false => simp at h
            have hne : curW ≠ [] := hPrev.mp hpt
            obtain ⟨d, hd, hdf⟩ := hBad hne (Or.inl rfl)
            exact ⟨d, List.mem_cons_of_mem c hd, hdf⟩
        · intro _
          simp
      · rw [if_neg hc]
        apply ih
        · simp
        · intro hok _
          obtain ⟨hW, hall⟩ := hOk hok hc
          exact ⟨by rw [hW], by simp [ht, hall]⟩
        · intro _ h
          rcases h with h | h
          · simp at h
          · obtain ⟨d, hd, hdf⟩ := hBad (hCur hc) (Or.inr h)
            exact ⟨d, List.mem_cons_of_mem c hd, hdf⟩
        · intro _
          simp
    · have ht' : isTokenChar c = false := by
        cases hx : isTokenChar c with
        | false => rfl
        | true => exact absurd hx ht
      by_cases hw : isWordChar c = true
      · simp only [tokAux, runsAux, ht', hw, if_true, Bool.false_eq_true, if_false]
        rw [if_neg (by simp), List.nil_append]
        apply ih
        · simp
        · intro hfalse _
          simp at hfalse
        · intro _ _
          exact ⟨c, List.mem_cons_self c curW, ht'⟩
        · intro hfalse
          simp at hfalse
      · have hw' : isWordChar c = false := by
          cases hx : isWordChar c with
          | false => rfl
          | true => exact absurd hx hw
        simp only [tokAux, runsAux, ht', hw', Bool.false_eq_true, if_false]
        rw [List.filter_append]
        have htail := ih false false [] []
          (by simp) (by intro h; simp at h) (by intro h; simp at h)
          (by intro h; simp at h)
        rw [htail]
        congr 1
        have := emit_eq_filter curOk cur curW hOk hBad hCur
        simpa using this


variable {α : Type}

theorem length_insertDesc (x : α × ℝ) (l : List (α × ℝ)) :
    (insertDesc x l).length = l.length + 1 := by
  induction l with
  | nil => rfl
  | cons y ys ih =>
    simp only [insertDesc]
    split
    · simp [ih]
    · simp

theorem mem_insertDesc (x z : α × ℝ) (l : List (α × ℝ)) :
    z ∈ insertDesc x l ↔ z = x ∨ z ∈ l := by
  induction l with
  | nil => simp [insertDesc]
  | cons y ys ih =>
    simp only [insertDesc]
    split
    · rw [List.mem_cons, ih, List.mem_cons]
      tauto
    · simp only [List.mem_cons]

theorem length_sortDesc (l : List (α × ℝ)) :
    (sortDesc l).length = l.length := by
  induction l with
  | nil => rfl
  | cons x xs ih => simp [sortDesc, length_insertDesc, ih]

theorem mem_sortDesc (z : α × ℝ) (l : List (α × ℝ)) :
    z ∈ sortDesc l ↔ z ∈ l := by
  induction l with
  | nil => simp [sortDesc]
  | cons x xs ih =>
    simp only [sortDesc, mem_insertDesc, List.mem_cons, ih]

theorem filter_insertDesc (v : ℝ) (x : α × ℝ) (l : List (α × ℝ)) :
    (insertDesc x l).filter (fun p => decide (p.2 = v)) =
      if x.2 = v then x :: l.filter (fun p => decide (p.2 = v))
      else l.filter (fun p => decide (p.2 = v)) := by
  induction l with
  | nil =>
    have h0 : insertDesc x ([] : List (α × ℝ)) = [x] := rfl
    rw [h0, List.filter_cons]
    by_cases hx : x.2 = v
    · rw [if_pos (by simpa using hx), if_pos hx]
    · rw [if_neg (by simpa using hx), if_neg hx]
  | cons y ys ih =>
    have h0 : insertDesc x (y :: ys) =
        if x.2 < y.2 then y :: insertDesc x ys else x :: y :: ys := rfl
    rw [h0]
    by_cases hlt : x.2 < y.2
    · rw [if_pos hlt]
      simp only [List.filter_cons, ih]
      by_cases hy : y.2 = v
      · have hx : ¬ x.2 = v := by
          intro hx
          rw [hx, hy] at hlt
          exact lt_irrefl v hlt
        simp [hy, hx]
      · simp [hy]
    · rw [if_neg hlt]
      simp only [List.filter_cons]
      by_cases hx : x.2 = v
      · simp [hx]
      · simp [hx]

theorem filter_sortDesc (v : ℝ) (l : List (α × ℝ)) :
    (sortDesc l).filter (fun p => decide (p.2 = v)) =
      l.filter (fun p => decide (p.2 = v)) := by
  induction l with
  | nil => rfl
  | cons x xs ih =>
    have hs : sortDesc (x :: xs) = insertDesc x (sortDesc xs) := rfl
    rw [hs, filter_insertDesc, List.filter_cons]
    by_cases hx : x.2 = v
    · rw [if_pos hx, if_pos (by simpa using hx), ih]
    · rw [if_neg hx, if_neg (by simpa using hx), ih]

theorem pairwise_insertDesc (x : α × ℝ) (l : List (α × ℝ))
    (h : l.Pairwise (fun a b => b.2 ≤ a.2)) :
    (insertDesc x l).Pairwise (fun a b => b.2 ≤ a.2) := by
  induction l with
  | nil => simp [insertDesc]
  | cons y ys ih =>
    rw [List.pairwise_cons] at h
    simp only [insertDesc]
    split
    · next hlt =>
      rw [List.pairwise_cons]
      constructor
      · intro z hz
        rcases (mem_insertDesc x z ys).mp hz with hz | hz
        · rw [hz]; exact le_of_lt hlt
        · exact h.1 z hz
      · exact ih h.2
    · next hge =>
      push_neg at hge
      rw [List.pairwise_cons]
      constructor
      · intro z hz
        rcases List.mem_cons.mp hz with hz | hz
        · rw [hz]; exact hge
        · exact le_trans (h.1 z hz) hge
      · exact List.pairwise_cons.mpr h
  
theorem pairwise_sortDesc (l : List (α × ℝ)) :
    (sortDesc l).Pairwise (fun a b => b.2 ≤ a.2) := by
  induction l with
  | nil => simp [sortDesc]
  | cons x xs ih => exact pairwise_insertDesc x (sortDesc xs) ih

theorem sortDesc_eq_self_of_const (v : ℝ) (l : List (α × ℝ))
    (h : ∀ p ∈ l, p.2 = v) :
    sortDesc l = l := by
  have h1 : l.filter (fun p => decide (p.2 = v)) = l := by
    rw [List.filter_eq_self]
    intro p hp
    simp [h p hp]
  have h2 : (sortDesc l).filter (fun p => decide (p.2 = v)) = sortDesc l := by
    rw [List.filter_eq_self]
    intro p hp
    simp [h p ((mem_sortDesc p l).mp hp)]
  rw [← h2, filter_sortDesc, h1]


@[simp] theorem fit_k1 (r : Ranker) (jobs : List Job) : (fit r jobs).k1 = r.k1 := rfl

@[simp] theorem fit_b (r : Ranker) (jobs : List Job) : (fit r jobs).b = r.b := rfl

@[simp] theorem fit_documents (r : Ranker) (jobs : List Job) :
    (fit r jobs).documents = jobs.map docTokens := rfl

@[simp] theorem fit_docLengths (r : Ranker) (jobs : List Job) :
    (fit r jobs).docLengths = (jobs.map docTokens).map List.length := rfl

@[simp] theorem fit_docFreqs (r : Ranker) (jobs : List Job) :
    (fit r jobs).docFreqs =
      (jobs.map docTokens).map (fun d => fun t => d.count t) := rfl

theorem fit_avgDocLen (r : Ranker) (jobs : List Job) :
    (fit r jobs).avgDocLen =
      if (jobs.map docTokens).map List.length = [] then 0
      else ((((jobs.map docTokens).map List.length).sum : ℝ) /
        ((((jobs.map docTokens).map List.length).length : ℕ) : ℝ)) := rfl

theorem fit_idf (r : Ranker) (jobs : List Job) (t : String) :
    (fit r jobs).idf t =
      if vocabMem (jobs.map docTokens) t = true then
        some (computeIdf (jobs.map docTokens).length
          (docCountOf (jobs.map docTokens) t))
      else r.idf t := rfl

theorem vocabMem_iff (documents : List (List String)) (t : String) :
    vocabMem documents t = true ↔ ∃ d ∈ documents, t ∈ d := by
  simp [vocabMem, List.any_eq_true]

theorem getD_docFreqs (documents : List (List String)) (j : Nat) (t : String) :
    ((documents.map (fun d => fun u => d.count u)).getD j (fun _ => 0)) t =
      (documents.getD j []).count t := by
  induction documents generalizing j with
  | nil => simp
  | cons d ds ih =>
    cases j with
    | zero => simp
    | succ j => simpa using ih j

theorem count_eq_zero_of_not_vocab (documents : List (List String)) (j : Nat)
    (t : String) (h : vocabMem documents t = false) :
    (documents.getD j []).count t = 0 := by
  rw [List.count_eq_zero]
  intro hmem
  by_cases hj : j < documents.length
  · have hd : documents.getD j [] ∈ documents := by
      rw [List.getD_eq_getElem?_getD, List.getElem?_eq_getElem hj]
      exact List.getElem_mem hj
    have : vocabMem documents t = true := (vocabMem_iff documents t).mpr
      ⟨documents.getD j [], hd, hmem⟩
    rw [h] at this
    exact Bool.false_ne_true this
  · rw [List.getD_eq_default _ _ (le_of_not_lt hj)] at hmem
    simp at hmem

theorem docCountOf_le (documents : List (List String)) (t : String) :
    docCountOf documents t ≤ documents.length :=
  List.length_filter_le _ _

theorem docCountOf_pos (documents : List (List String)) (t : String)
    (h : vocabMem documents t = true) : 1 ≤ docCountOf documents t := by
  obtain ⟨d, hd, hmem⟩ := (vocabMem_iff documents t).mp h
  have : d ∈ documents.filter (fun d => d.contains t) := by
    rw [List.mem_filter]
    exact ⟨hd, by simpa using hmem⟩
  have := List.length_pos.mpr (List.ne_nil_of_mem this)
  simpa [docCountOf] using this

theorem computeIdf_pos (numDocs docCount : Nat) (h1 : 1 ≤ docCount)
    (h2 : docCount ≤ numDocs) : 0 < computeIdf numDocs docCount := by
  apply Real.log_pos
  have hcast : (docCount : ℝ) ≤ (numDocs : ℝ) := by exact_mod_cast h2
  have hden : (0 : ℝ) < (docCount : ℝ) + 0.5 := by positivity
  have hnum : (0 : ℝ) < (numDocs : ℝ) - (docCount : ℝ) + 0.5 := by linarith
  have : (0 : ℝ) < ((numDocs : ℝ) - (docCount : ℝ) + 0.5) / ((docCount : ℝ) + 0.5) :=
    div_pos hnum hden
  linarith

theorem lengthNormVal_nonneg (avgDocLen : ℝ) (docLen : Nat) :
    0 ≤ lengthNormVal avgDocLen docLen := by
  rw [lengthNormVal]
  split
  · next h => positivity
  · norm_num

theorem termContrib_nonneg (k1 b idfVal lnorm : ℝ) (tf : Nat)
    (hk : 0 ≤ k1) (hb0 : 0 ≤ b) (hb1 : b ≤ 1) (hl : 0 ≤ lnorm)
    (hidf : 0 ≤ idfVal) : 0 ≤ termContrib k1 b idfVal lnorm tf := by
  rw [termContrib]
  split
  · exact le_refl 0
  · next htf =>
    have htf1 : 1 ≤ (tf : ℝ) := by
      have : 1 ≤ tf := Nat.one_le_iff_ne_zero.mpr htf
      exact_mod_cast this
    have hK : 0 ≤ k1 * (1 - b + b * lnorm) := by
      apply mul_nonneg hk
      nlinarith
    have hden : 0 < (tf : ℝ) + k1 * (1 - b + b * lnorm) := by linarith
    have hnum : 0 ≤ (tf : ℝ) * (k1 + 1) := by nlinarith
    exact mul_nonneg hidf (div_nonneg hnum (le_of_lt hden))

theorem termContrib_zero (k1 b idfVal lnorm : ℝ) :
    termContrib k1 b idfVal lnorm 0 = 0 := by
  rw [termContrib]
  simp

theorem termContrib_mono (k1 b idfVal lnorm : ℝ) (tf1 tf2 : Nat)
    (hk : 0 < k1) (hb0 : 0 ≤ b) (hb1 : b ≤ 1) (hl : 0 ≤ lnorm)
    (hidf : 0 ≤ idfVal) (htf : tf1 ≤ tf2) :
    termContrib k1 b idfVal lnorm tf1 ≤ termContrib k1 b idfVal lnorm tf2 := by
  rcases Nat.eq_zero_or_pos tf1 with h1 | h1
  · rw [h1]
    rw [termContrib_zero]
    exact termContrib_nonneg k1 b idfVal lnorm tf2 (le_of_lt hk) hb0 hb1 hl hidf
  · have h2 : 0 < tf2 := lt_of_lt_of_le h1 htf
    rw [termContrib, termContrib, if_neg (Nat.pos_iff_ne_zero.mp h1),
      if_neg (Nat.pos_iff_ne_zero.mp h2)]
    apply mul_le_mul_of_nonneg_left _ hidf
    have hK : 0 ≤ k1 * (1 - b + b * lnorm) := by
      apply mul_nonneg (le_of_lt hk)
      nlinarith
    have hc1 : (1 : ℝ) ≤ (tf1 : ℝ) := by exact_mod_cast h1
    have hc2 : (1 : ℝ) ≤ (tf2 : ℝ) := by exact_mod_cast h2
    have hcle : (tf1 : ℝ) ≤ (tf2 : ℝ) := by exact_mod_cast htf
    rw [div_le_div_iff₀ (by linarith) (by linarith)]
    have hKm : (tf1 : ℝ) * (k1 * (1 - b + b * lnorm)) ≤
        (tf2 : ℝ) * (k1 * (1 - b + b * lnorm)) :=
      mul_le_mul_of_nonneg_right hcle hK
    nlinarith [mul_le_mul_of_nonneg_left hKm (show (0:ℝ) ≤ k1 + 1 by linarith)]

theorem score_eq_cases (r : Ranker) (q : String) (i : ℤ) :
    ((r.documents.length : ℤ) ≤ i → score r q i = some 0) ∧
    (0 ≤ i → i < (r.documents.length : ℤ) →
      score r q i = some (scoreAt r q i.toNat)) ∧
    (-(r.documents.length : ℤ) ≤ i → i < 0 →
      score r q i = some (scoreAt r q ((r.documents.length : ℤ) + i).toNat)) ∧
    (i < -(r.documents.length : ℤ) → score r q i = none) := by
  refine ⟨?_, ?_, ?_, ?_⟩
  · intro h
    rw [score, if_pos h]
  · intro h0 hlt
    rw [score, if_neg (by omega), pyIdx, if_pos ⟨h0, hlt⟩]
    rfl
  · intro hge hlt
    rw [score, if_neg (by omega), pyIdx, if_neg (by omega), if_pos ⟨hge, hlt⟩]
    rfl
  · intro h
    rw [score, if_neg (by omega), pyIdx, if_neg (by omega), if_neg (by omega)]
    rfl

theorem scoreAt_fit_nonneg (r : Ranker) (jobs : List Job) (q : String) (j : Nat)
    (hk : 0 ≤ r.k1) (hb0 : 0 ≤ r.b) (hb1 : r.b ≤ 1) :
    0 ≤ scoreAt (fit r jobs) q j := by
  rw [scoreAt]
  apply List.sum_nonneg
  intro x hx
  rw [List.mem_map] at hx
  obtain ⟨term, _, rfl⟩ := hx
  cases hidf : (fit r jobs).idf term with
  | none => exact le_refl 0
  | some idfVal =>
    rw [fit_idf] at hidf
    by_cases hv : vocabMem (jobs.map docTokens) term = true
    · rw [if_pos hv] at hidf
      have hpos : 0 < idfVal := by
        rw [Option.some_inj] at hidf
        rw [← hidf]
        exact computeIdf_pos _ _ (docCountOf_pos _ _ hv) (docCountOf_le _ _)
      exact termContrib_nonneg _ _ _ _ _ hk hb0 hb1
        (lengthNormVal_nonneg _ _) (le_of_lt hpos)
    · have hv' : vocabMem (jobs.map docTokens) term = false := by
        cases hx : vocabMem (jobs.map docTokens) term with
        | false => rfl
        | true => exact absurd hx hv
      have htf : ((fit r jobs).docFreqs.getD j (fun _ => 0)) term = 0 := by
        rw [fit_docFreqs, getD_docFreqs]
        exact count_eq_zero_of_not_vocab _ j term hv'
      rw [htf]
      exact le_of_eq (termContrib_zero _ _ _ _).symm

theorem scoreAt_zero_of_no_match (r : Ranker) (jobs : List Job) (q : String)
    (j : Nat) (h : ∀ t ∈ tokenize q, ∀ job ∈ jobs, t ∉ docTokens job) :
    scoreAt (fit r jobs) q j = 0 := by
  rw [scoreAt]
  apply List.sum_eq_zero
  intro x hx
  rw [List.mem_map] at hx
  obtain ⟨term, hterm, rfl⟩ := hx
  have hv : vocabMem (jobs.map docTokens) term = false := by
    cases hx : vocabMem (jobs.map docTokens) term with
    | false => rfl
    | true =>
      obtain ⟨d, hd, hmem⟩ := (vocabMem_iff _ _).mp hx
      rw [List.mem_map] at hd
      obtain ⟨job, hjob, rfl⟩ := hd
      exact absurd hmem (h term hterm job hjob)
  have htf : ((fit r jobs).docFreqs.getD j (fun _ => 0)) term = 0 := by
    rw [fit_docFreqs, getD_docFreqs]
    exact count_eq_zero_of_not_vocab _ j term hv
  cases hidf : (fit r jobs).idf term with
  | none => rfl
  | some idfVal =>
    rw [htf]
    exact termContrib_zero _ _ _ _

theorem scoreAt_fit_congr (r1 r2 : Ranker) (hk : r1.k1 = r2.k1)
    (hb : r1.b = r2.b) (B : List Job) (q : String) (j : Nat) :
    scoreAt (fit r1 B) q j = scoreAt (fit r2 B) q j := by
  rw [scoreAt, scoreAt]
  congr 1
  apply List.map_congr_left
  intro term _
  by_cases hv : vocabMem (B.map docTokens) term = true
  · rw [fit_idf, fit_idf, if_pos hv, if_pos hv]
    simp only [fit_k1, fit_b, fit_docLengths, fit_docFreqs, fit_documents]
    rw [hk, hb]
    have : (fit r1 B).avgDocLen = (fit r2 B).avgDocLen := rfl
    simp only [fit_avgDocLen]
  · have hv' : vocabMem (B.map docTokens) term = false := by
      cases hx : vocabMem (B.map docTokens) term with
      | false => rfl
      | true => exact absurd hx hv
    have htf1 : ((fit r1 B).docFreqs.getD j (fun _ => 0)) term = 0 := by
      rw [fit_docFreqs, getD_docFreqs]
      exact count_eq_zero_of_not_vocab _ j term hv'
    have htf2 : ((fit r2 B).docFreqs.getD j (fun _ => 0)) term = 0 := by
      rw [fit_docFreqs, getD_docFreqs]
      exact count_eq_zero_of_not_vocab _ j term hv'
    cases h1 : (fit r1 B).idf term with
    | none =>
      cases h2 : (fit r2 B).idf term with
      | none => rfl
      | some v2 =>
        rw [htf2]
        exact (termContrib_zero _ _ _ _).symm
    | some v1 =>
      cases h2 : (fit r2 B).idf term with
      | none =>
        rw [htf1]
        exact termContrib_zero _ _ _ _
      | some v2 =>
        rw [htf1, htf2]
        exact (termContrib_zero _ _ _ _).trans (termContrib_zero _ _ _ _).symm


theorem length_enumFrom (l : List Job) : ∀ n : Nat, (l.enumFrom n).length = l.length := by
  induction l with
  | nil => intro n; rfl
  | cons x xs ih =>
    intro n
    simp only [List.enumFrom_cons, List.length_cons]
    rw [ih (n + 1)]

theorem scoredList_length (r2 : Ranker) (q : String) (jobs : List Job) :
    (scoredList r2 q jobs).length = jobs.length := by
  rw [scoredList, List.length_map]
  exact length_enumFrom jobs 0

theorem enumFrom_scored_eq_map (r2 : Ranker) (q : String) :
    ∀ (l : List Job) (n : Nat),
      (∀ i : Nat, n ≤ i → i < n + l.length → (score r2 q (i : ℤ)).getD 0 = 0) →
      (l.enumFrom n).map (fun p => (p.2, (score r2 q (p.1 : ℤ)).getD 0)) =
        l.map (fun j => (j, (0 : ℝ))) := by
  intro l
  induction l with
  | nil => intro n _; rfl
  | cons x xs ih =>
    intro n h
    have h0 : (score r2 q (n : ℤ)).getD 0 = 0 :=
      h n (le_refl n) (by simp)
    have htail := ih (n + 1) (by
      intro i h1 h2
      exact h i (by omega) (by simp only [List.length_cons]; omega))
    simp only [List.enumFrom_cons, List.map_cons, h0, htail]

theorem scoredList_zero_of_no_match (r : Ranker) (jobs : List Job) (q : String)
    (h : ∀ t ∈ tokenize q, ∀ job ∈ jobs, t ∉ docTokens job) :
    scoredList (fit r jobs) q jobs = jobs.map (fun j => (j, (0 : ℝ))) := by
  rw [scoredList]
  have hlen : ((fit r jobs).documents.length : ℤ) = (jobs.length : ℤ) := by
    rw [fit_documents, List.length_map]
  apply enumFrom_scored_eq_map
  intro i _ hi
  have h2 := (score_eq_cases (fit r jobs) q (i : ℤ)).2.1
    (by exact_mod_cast Nat.zero_le i) (by rw [hlen]; exact_mod_cast (by simpa using hi))
  rw [h2]
  simp only [Option.getD_some, Int.toNat_natCast]
  exact scoreAt_zero_of_no_match r jobs q i h

theorem rank_none_eq (r : Ranker) (jobs : List Job) (q : String) :
    rank r jobs q none = sortDesc (scoredList (fit r jobs) q jobs) := rfl

theorem rank_some_eq (r : Ranker) (jobs : List Job) (q : String) (k : ℤ) :
    rank r jobs q (some k) =
      if k = 0 then sortDesc (scoredList (fit r jobs) q jobs)
      else pySliceTo (sortDesc (scoredList (fit r jobs) q jobs)) k := rfl

theorem score_fit_congr (r1 r2 : Ranker) (hk : r1.k1 = r2.k1)
    (hb : r1.b = r2.b) (B : List Job) (q : String) (i : ℤ) :
    score (fit r1 B) q i = score (fit r2 B) q i := by
  rw [score, score, fit_documents, fit_documents]
  by_cases h : (((B.map docTokens).length : ℕ) : ℤ) ≤ i
  · rw [if_pos h, if_pos h]
  · rw [if_neg h, if_neg h]
    cases hp : pyIdx (B.map docTokens).length i with
    | none => rfl
    | some j => simp [scoreAt_fit_congr r1 r2 hk hb B q j]

theorem tokenize_eq_specAmended (s : String) :
    tokenize s = specTokenizeAmended s := by
  rw [tokenize, specTokenizeAmended, runs]
  rw [tokAux_eq_filter_runs (s.data.map Char.toLower) false false [] []
    (by simp) (by intro h; simp at h) (by intro h; simp at h)
    (by intro h; simp at h)]


theorem fieldCopies_eq (o : Option String) (n : Nat) :
    (if truthyStr o then List.replicate n (o.getD "") else []) =
      specFieldCopies (o, n) := by
  cases o with
  | none => rfl
  | some s =>
    by_cases hs : s = ""
    · simp [truthyStr, specFieldCopies, hs]
    · simp [truthyStr, specFieldCopies, hs]

theorem fieldCopies_one (o : Option String) :
    (if truthyStr o then [o.getD ""] else []) = specFieldCopies (o, 1) := by
  cases o with
  | none => rfl
  | some s =>
    by_cases hs : s = ""
    · simp [truthyStr, specFieldCopies, hs]
    · simp [truthyStr, specFieldCopies, hs, List.replicate]

theorem keywordCopies_eq (ks : Option (List String)) :
    (if truthyList ks then (ks.getD []).flatMap (fun k => List.replicate 2 k)
      else []) =
      (match ks with
       | none => []
       | some l => if l = [] then [] else l.flatMap (fun k => [k, k])) := by
  cases ks with
  | none => rfl
  | some l =>
    by_cases hl : l = []
    · simp [truthyList, hl]
    · have h1 : truthyList (some l) = true := by
        simp [truthyList, hl]
      rw [h1, if_pos rfl]
      show (l.flatMap fun k => List.replicate 2 k) =
        if l = [] then [] else l.flatMap fun k => [k, k]
      rw [if_neg hl]
      rfl

/-- C5: the projected document text is exactly the spec's weighted
whitespace-joined concatenation — title ×3, company ×2, location ×2,
jd_text ×1, each keyword ×2 — with absent, null or empty fields skipped
entirely. -/
theorem claim_C5 (job : Job) : getDocumentText job = specProjectText job := by
  rw [getDocumentText, specProjectText]
  congr 1
  rw [specWeightedFields]
  simp only [List.flatMap_cons, List.flatMap_nil, List.append_nil]
  rw [← fieldCopies_eq job.title 3, ← fieldCopies_eq job.company 2,
    ← fieldCopies_eq job.location 2, ← fieldCopies_one job.jd_text,
    ← keywordCopies_eq job.jd_keywords]
  simp [List.append_assoc]

/-- C3 (counterexample): on the input `"foo_bar"` the tokenizer of the
source returns no token at all, while the claimed
underscore-is-a-separator behaviour would return `["foo", "bar"]` — the
`\b` anchors reject runs adjacent to an underscore, so the claim is false
as stated. -/
theorem claim_C3_cex :
    tokenize "foo_bar" = [] ∧ specTokenize "foo_bar" = ["foo", "bar"] ∧
      tokenize "foo_bar" ≠ specTokenize "foo_bar" :=
  ⟨by decide, by decide, by decide⟩

/-- C3 (amended): tokenize lowercases the text and returns, in
left-to-right order, exactly the maximal runs of word characters that
consist solely of `[a-z0-9]`; only non-word characters act as separators,
and a maximal `[a-z0-9]` run adjacent to another word character (such as
underscore) is discarded entirely rather than split.  Empty input and
input with no such run yield the empty sequence (instance `s.data = []`
gives `tokenize s = []` by the same equation). -/
theorem claim_C3_amended (s : String) : tokenize s = specTokenizeAmended s :=
  tokenize_eq_specAmended s

/-- C7: with the document length, average length and idf value fixed
— the idf value being one the program computes, hence positive — and
`k1 > 0`, `0 ≤ b ≤ 1`, the per-term BM25 contribution is monotonically
non-decreasing in the term frequency. -/
theorem claim_C7 (k1 b lnorm : ℝ) (numDocs docCount tf1 tf2 : Nat)
    (hk : 0 < k1) (hb0 : 0 ≤ b) (hb1 : b ≤ 1) (hl : 0 ≤ lnorm)
    (h1 : 1 ≤ docCount) (h2 : docCount ≤ numDocs) (htf : tf1 ≤ tf2) :
    termContrib k1 b (computeIdf numDocs docCount) lnorm tf1 ≤
      termContrib k1 b (computeIdf numDocs docCount) lnorm tf2 :=
  termContrib_mono k1 b (computeIdf numDocs docCount) lnorm tf1 tf2
    hk hb0 hb1 hl (le_of_lt (computeIdf_pos numDocs docCount h1 h2)) htf

/-- Witness for C7 at `k1 = 1.5`, `b = 0.75`, a 2-document corpus with
the term in 1 document, length norm 1, and frequencies 1 ≤ 2. -/
theorem claim_C7_witness :
    (0 < (1.5 : ℝ) ∧ 0 ≤ (0.75 : ℝ) ∧ (0.75 : ℝ) ≤ 1 ∧ (0 : ℝ) ≤ 1 ∧
      1 ≤ 1 ∧ 1 ≤ 2 ∧ 1 ≤ 2) ∧
      termContrib 1.5 0.75 (computeIdf 2 1) 1 1 ≤
        termContrib 1.5 0.75 (computeIdf 2 1) 1 2 :=
  ⟨⟨by norm_num, by norm_num, by norm_num, by norm_num, by norm_num,
      by norm_num, by norm_num⟩,
    claim_C7 1.5 0.75 1 2 1 1 2 (by norm_num) (by norm_num) (by norm_num)
      (by norm_num) (by norm_num) (by norm_num) (by norm_num)⟩

/-- C10: `top_k = 0` is falsy in Python, so `rank` with `top_k = 0`
returns all N scored results, identically to an absent `top_k`. -/
theorem claim_C10 (r : Ranker) (jobs : List Job) (q : String) :
    rank r jobs q (some 0) = rank r jobs q none ∧
      (rank r jobs q (some 0)).length = jobs.length := by
  constructor
  · rw [rank_some_eq, if_pos rfl, rank_none_eq]
  · rw [rank_some_eq, if_pos rfl, length_sortDesc, scoredList_length]

/-- C9: a negative docIndex with `-N ≤ docIndex ≤ -1` does not take the
defensive-default path: the guard only catches `docIndex ≥ N`, and the
subsequent Python subscription aliases to document `N + docIndex`. -/
theorem claim_C9 (r : Ranker) (q : String) (i : ℤ)
    (h1 : -(r.documents.length : ℤ) ≤ i) (h2 : i < 0) :
    score r q i = some (scoreAt r q ((r.documents.length : ℤ) + i).toNat) :=
  (score_eq_cases r q i).2.2.1 h1 h2

/-- Witness for C9 on a fitted one-document corpus at `docIndex = -1`. -/
theorem claim_C9_witness :
    (-((fit defaultRanker [jobX]).documents.length : ℤ) ≤ -1 ∧ (-1 : ℤ) < 0) ∧
      score (fit defaultRanker [jobX]) "x" (-1) =
        some (scoreAt (fit defaultRanker [jobX]) "x"
          (((fit defaultRanker [jobX]).documents.length : ℤ) + -1).toNat) :=
  ⟨⟨by decide, by decide⟩,
    claim_C9 (fit defaultRanker [jobX]) "x" (-1) (by decide) (by decide)⟩

/-- C2 (amended): `score` returns 0.0 only for `docIndex ≥ N`; a negative
index with `-N ≤ docIndex < 0` returns the BM25 score of document
`N + docIndex`, and an index below `-N` raises `IndexError` rather than
returning 0.0. -/
theorem claim_C2_amended (r : Ranker) (q : String) (i : ℤ) :
    ((r.documents.length : ℤ) ≤ i → score r q i = some 0) ∧
    (-(r.documents.length : ℤ) ≤ i → i < 0 →
      score r q i = some (scoreAt r q ((r.documents.length : ℤ) + i).toNat)) ∧
    (i < -(r.documents.length : ℤ) → score r q i = none) :=
  ⟨(score_eq_cases r q i).1, (score_eq_cases r q i).2.2.1,
    (score_eq_cases r q i).2.2.2⟩

/-- Witness for C2 (amended) on a fitted one-document corpus: index 5 is
caught by the guard and yields 0.0, index −2 raises. -/
theorem claim_C2_witness :
    (((fit defaultRanker [jobX]).documents.length : ℤ) ≤ 5 ∧
        score (fit defaultRanker [jobX]) "x" 5 = some 0) ∧
      ((-2 : ℤ) < -((fit defaultRanker [jobX]).documents.length : ℤ) ∧
        score (fit defaultRanker [jobX]) "x" (-2) = none) :=
  ⟨⟨by decide, (claim_C2_amended (fit defaultRanker [jobX]) "x" 5).1 (by decide)⟩,
    ⟨by decide, (claim_C2_amended (fit defaultRanker [jobX]) "x" (-2)).2.2 (by decide)⟩⟩

/-- C6: a provided positive `top_k` smaller than N truncates the sorted
sequence to its first `top_k` entries; a `top_k ≥ N` (and an absent one)
returns all N entries, and the full ranking always has exactly N. -/
theorem claim_C6 (r : Ranker) (jobs : List Job) (q : String) (k : ℤ) :
    (0 < k → k < (jobs.length : ℤ) →
      rank r jobs q (some k) = (rank r jobs q none).take k.toNat) ∧
    ((jobs.length : ℤ) ≤ k → rank r jobs q (some k) = rank r jobs q none) ∧
    (rank r jobs q none).length = jobs.length := by
  refine ⟨?_, ?_, ?_⟩
  · intro hk _
    rw [rank_some_eq, if_neg (by omega), pySliceTo, if_pos (le_of_lt hk),
      rank_none_eq]
  · intro hk
    by_cases h0 : k = 0
    · rw [rank_some_eq, if_pos h0, rank_none_eq]
    · rw [rank_some_eq, if_neg h0, pySliceTo, if_pos (by omega), rank_none_eq]
      apply List.take_of_length_le
      rw [length_sortDesc, scoredList_length]
      omega
  · rw [rank_none_eq, length_sortDesc, scoredList_length]

/-- Witness for C6 on a 2-document corpus with `top_k = 1`. -/
theorem claim_C6_witness :
    ((0 : ℤ) < 1 ∧ (1 : ℤ) < (([jobX, jobY] : List Job).length : ℤ)) ∧
      rank defaultRanker [jobX, jobY] "x" (some 1) =
        (rank defaultRanker [jobX, jobY] "x" none).take (1 : ℤ).toNat :=
  ⟨⟨by decide, by decide⟩,
    (claim_C6 defaultRanker [jobX, jobY] "x" 1).1 (by decide) (by decide)⟩

/-- C4: `rank` sorts descending by score; the sort is stable (for every
score value, the subsequence at that score keeps its pre-sort order, which
is the input order); and a query whose tokens appear in no document
returns every document with score exactly 0.0 in the original input
order. -/
theorem claim_C4 (r : Ranker) (jobs : List Job) (q : String) :
    (rank r jobs q none).Pairwise (fun a b => b.2 ≤ a.2) ∧
    (∀ v : ℝ, (rank r jobs q none).filter (fun p => decide (p.2 = v)) =
      (scoredList (fit r jobs) q jobs).filter (fun p => decide (p.2 = v))) ∧
    ((∀ t ∈ tokenize q, ∀ job ∈ jobs, t ∉ docTokens job) →
      rank r jobs q none = jobs.map (fun j => (j, (0 : ℝ)))) := by
  refine ⟨?_, ?_, ?_⟩
  · rw [rank_none_eq]
    exact pairwise_sortDesc _
  · intro v
    rw [rank_none_eq]
    exact filter_sortDesc v _
  · intro h
    rw [rank_none_eq, scoredList_zero_of_no_match r jobs q h]
    apply sortDesc_eq_self_of_const 0
    intro p hp
    rw [List.mem_map] at hp
    obtain ⟨j, _, rfl⟩ := hp
    rfl

/-- Witness for C4: a query matching no document on a 2-document corpus
yields both documents with score 0.0 in input order. -/
theorem claim_C4_witness :
    (∀ t ∈ tokenize "zzzz", ∀ job ∈ ([jobX, jobY] : List Job),
        t ∉ docTokens job) ∧
      rank defaultRanker [jobX, jobY] "zzzz" none =
        ([jobX, jobY] : List Job).map (fun j => (j, (0 : ℝ))) :=
  ⟨by decide, (claim_C4 defaultRanker [jobX, jobY] "zzzz").2.2 (by decide)⟩

/-- C1 (counterexample): after `fit([alpha-job])` then `fit([beta-job])`
the idf dict still holds the key `"alpha"`, which is not a token of the
second corpus, and a fresh ranker fitted on the second corpus has no such
key — `fit` never clears `self.idf`, so the claimed equality with a fresh
fit is false. -/
theorem claim_C1_cex :
    ((fit (fit defaultRanker [jobAlpha]) [jobBeta]).idf "alpha").isSome = true ∧
      vocabMem (fit (fit defaultRanker [jobAlpha]) [jobBeta]).documents
        "alpha" = false ∧
      (fit defaultRanker [jobBeta]).idf "alpha" = none := by
  refine ⟨?_, by decide, ?_⟩
  · rw [fit_idf, if_neg (by decide), fit_idf, if_pos (by decide)]
    rfl
  · rw [fit_idf, if_neg (by decide)]
    rfl

/-- C1 (amended): `fit(B)` after `fit(A)` rebuilds the documents, lengths,
frequencies and average exactly as a fresh `fit(B)` does, and its idf
mapping agrees with the fresh one on every token of corpus B; stale idf
entries for tokens of A outside B persist, but every score computed from
the twice-fitted state equals the fresh one, because a stale entry is only
reachable for terms of zero frequency in the scored document. -/
theorem claim_C1_amended (A B : List Job) :
    (fit (fit defaultRanker A) B).documents = (fit defaultRanker B).documents ∧
    (fit (fit defaultRanker A) B).docLengths = (fit defaultRanker B).docLengths ∧
    (fit (fit defaultRanker A) B).avgDocLen = (fit defaultRanker B).avgDocLen ∧
    (∀ t, vocabMem (fit defaultRanker B).documents t = true →
      (fit (fit defaultRanker A) B).idf t = (fit defaultRanker B).idf t) ∧
    (∀ (q : String) (i : ℤ),
      score (fit (fit defaultRanker A) B) q i = score (fit defaultRanker B) q i) := by
  refine ⟨rfl, rfl, rfl, ?_, ?_⟩
  · intro t hv
    rw [fit_documents] at hv
    rw [fit_idf (fit defaultRanker A) B t, if_pos hv,
      fit_idf defaultRanker B t, if_pos hv]
  · intro q i
    exact score_fit_congr (fit defaultRanker A) defaultRanker rfl rfl B q i

/-- Witness for C1 (amended): on the concrete corpora the twice-fitted and
freshly fitted idf agree at the token `"beta"` of the second corpus. -/
theorem claim_C1_witness :
    vocabMem (fit defaultRanker [jobBeta]).documents "beta" = true ∧
      (fit (fit defaultRanker [jobAlpha]) [jobBeta]).idf "beta" =
        (fit defaultRanker [jobBeta]).idf "beta" :=
  ⟨by decide, (claim_C1_amended [jobAlpha] [jobBeta]).2.2.2.1 "beta" (by decide)⟩

/-- C8: every idf entry the program writes for a token of the fitted
corpus is strictly positive (the `+1.0` keeps the logarithm's argument
above 1), and consequently every float `score` returns is non-negative. -/
theorem claim_C8 :
    (∀ (r : Ranker) (jobs : List Job) (t : String),
      vocabMem (fit r jobs).documents t = true →
      ∃ v, (fit r jobs).idf t = some v ∧ 0 < v) ∧
    (∀ (r : Ranker) (jobs : List Job) (q : String) (i : ℤ) (v : ℝ),
      0 ≤ r.k1 → 0 ≤ r.b → r.b ≤ 1 →
      score (fit r jobs) q i = some v → 0 ≤ v) := by
  constructor
  · intro r jobs t hv
    rw [fit_documents] at hv
    refine ⟨computeIdf (jobs.map docTokens).length
      (docCountOf (jobs.map docTokens) t), ?_, ?_⟩
    · rw [fit_idf, if_pos hv]
    · exact computeIdf_pos _ _ (docCountOf_pos _ _ hv) (docCountOf_le _ _)
  · intro r jobs q i v hk hb0 hb1 hs
    rw [score] at hs
    split at hs
    · rw [Option.some_inj] at hs
      rw [← hs]
    · cases hp : pyIdx (fit r jobs).documents.length i with
      | none =>
        rw [hp] at hs
        simp at hs
      | some j =>
        rw [hp] at hs
        simp only [Option.map_some'] at hs
        rw [Option.some_inj] at hs
        rw [← hs]
        exact scoreAt_fit_nonneg r jobs q j hk hb0 hb1

/-- Witness for C8: on the fitted one-document corpus the idf of `"x"` is
positive, and a concrete returned score is non-negative. -/
theorem claim_C8_witness :
    (vocabMem (fit defaultRanker [jobX]).documents "x" = true ∧
      ∃ v, (fit defaultRanker [jobX]).idf "x" = some v ∧ 0 < v) ∧
      (0 ≤ defaultRanker.k1 ∧ 0 ≤ defaultRanker.b ∧ defaultRanker.b ≤ 1 ∧
        0 ≤ scoreAt (fit defaultRanker [jobX]) "zz" 0) :=
  ⟨⟨by decide, claim_C8.1 defaultRanker [jobX] "x" (by decide)⟩,
    ⟨by norm_num [defaultRanker, initRanker], by norm_num [defaultRanker, initRanker],
      by norm_num [defaultRanker, initRanker],
      claim_C8.2 defaultRanker [jobX] "zz" 0
        (scoreAt (fit defaultRanker [jobX]) "zz" ((0 : ℤ).toNat))
        (by norm_num [defaultRanker, initRanker])
        (by norm_num [defaultRanker, initRanker])
        (by norm_num [defaultRanker, initRanker])
        ((score_eq_cases (fit defaultRanker [jobX]) "zz" 0).2.1 (by decide) (by decide))⟩⟩

theorem termContrib_pos (k1 b idfVal lnorm : ℝ) (tf : Nat)
    (hk : 0 < k1) (hb0 : 0 ≤ b) (hb1 : b ≤ 1) (hl : 0 ≤ lnorm)
    (hidf : 0 < idfVal) (htf : tf ≠ 0) :
    0 < termContrib k1 b idfVal lnorm tf := by
  rw [termContrib, if_neg htf]
  have htf1 : 1 ≤ (tf : ℝ) := by
    have : 1 ≤ tf := Nat.one_le_iff_ne_zero.mpr htf
    exact_mod_cast this
  have hK : 0 ≤ k1 * (1 - b + b * lnorm) := by
    apply mul_nonneg (le_of_lt hk)
    nlinarith
  have hden : 0 < (tf : ℝ) + k1 * (1 - b + b * lnorm) := by linarith
  have hnum : 0 < (tf : ℝ) * (k1 + 1) := by nlinarith
  exact mul_pos hidf (div_pos hnum hden)

/-- C2 (counterexample): on a fitted one-document corpus, `score` at
docIndex −1 returns the (strictly positive) BM25 score of document 0
rather than 0.0, and at docIndex −2 it raises `IndexError` rather than
returning 0.0 — so "out of bounds returns 0.0 and never throws" is false
for negative indices. -/
theorem claim_C2_cex :
    score (fit defaultRanker [jobX]) "x" (-1) ≠ some 0 ∧
      score (fit defaultRanker [jobX]) "x" (-2) = none := by
  constructor
  · have hs := (score_eq_cases (fit defaultRanker [jobX]) "x" (-1)).2.2.1
      (by decide) (by decide)
    rw [hs]
    intro hcontra
    rw [Option.some_inj] at hcontra
    have hj : (((fit defaultRanker [jobX]).documents.length : ℤ) + -1).toNat = 0 := by
      decide
    rw [hj] at hcontra
    have hpos : 0 < scoreAt (fit defaultRanker [jobX]) "x" 0 := by
      have htok : tokenize "x" = ["x"] := by decide
      rw [scoreAt, htok]
      have hidf : (fit defaultRanker [jobX]).idf "x" = some (computeIdf 1 1) := by
        have h1 : (List.map docTokens [jobX]).length = 1 := by decide
        have h2 : docCountOf (List.map docTokens [jobX]) "x" = 1 := by decide
        rw [fit_idf, if_pos (by decide), h1, h2]
      rw [List.map_cons, List.map_nil, hidf, List.sum_cons, List.sum_nil, add_zero]
      show 0 < termContrib (fit defaultRanker [jobX]).k1 (fit defaultRanker [jobX]).b
        (computeIdf 1 1)
        (lengthNormVal (fit defaultRanker [jobX]).avgDocLen
          ((fit defaultRanker [jobX]).docLengths.getD 0 0))
        (((fit defaultRanker [jobX]).docFreqs.getD 0 (fun _ => 0)) "x")
      have hk1 : (fit defaultRanker [jobX]).k1 = 1.5 := rfl
      have hb : (fit defaultRanker [jobX]).b = 0.75 := rfl
      have htf : ((fit defaultRanker [jobX]).docFreqs.getD 0 (fun _ => 0)) "x" = 3 := by
        decide
      rw [hk1, hb, htf]
      apply termContrib_pos 1.5 0.75 (computeIdf 1 1) _ 3 (by norm_num) (by norm_num)
        (by norm_num) (lengthNormVal_nonneg _ _)
        (computeIdf_pos 1 1 (by norm_num) (by norm_num)) (by norm_num)
    exact absurd hcontra (ne_of_gt hpos)
  · exact (score_eq_cases (fit defaultRanker [jobX]) "x" (-2)).2.2.2 (by decide)

end BM25
